import Mathlib

/-!
Verification of the LIN-bus inverter auxiliary controller
(src/software/inverter.c) against its natural-language specification.

The C program is shallowly embedded: machine bytes become Nat values with
explicit masking where the C types wrap (byte = 8 bit, word = 16 bit),
the hardware inputs (P_GOOD, POW_5V) and the peer's LIN responses become
explicit input streams, and the UART layer is abstracted to the sequence
of bytes handed to it.  Every definition is translated from the source;
definitions whose names start with spec are transcriptions of the
specification text, used to compare the code against the spec.
-/

set_option maxRecDepth 8000

namespace Inverter

/-- Error codes, inverter.c lines 45-49. -/
def WAKEUP_ERROR : Nat := 1

/-- RESP_ERROR, inverter.c line 46. -/
def RESP_ERROR : Nat := 2

/-- STARTUP_ERROR, inverter.c line 47. -/
def STARTUP_ERROR : Nat := 3

/-- PGOOD_ERROR, inverter.c line 48. -/
def PGOOD_ERROR : Nat := 4

/-- LOW_BATT_ERR, inverter.c line 49. -/
def LOW_BATT_ERR : Nat := 5

/-- Pointwise function update, used to model writes into C arrays. -/
def updFn (f : Nat → Nat) (i v : Nat) : Nat → Nat :=
  fun x => if x = i then v else f x

/-! ## LIN frame construction (inverter.c lines 141-165) -/

/-- LIN_send_data, inverter.c lines 157-165: the list of bytes handed to
UART_send, i.e. the data bytes in order followed by the checksum byte.
The local variable checksum has C type word (16 bit), so every addition
is taken mod 65536; the final expression is sent masked to a byte. -/
def LIN_send_data (data : List Nat) (IDword : Nat) : List Nat :=
  let checksum := data.foldl (fun a b => (a + b) % 65536) (IDword % 65536)
  let folded := ((checksum &&& 0xFF) + (checksum >>> 8)) ^^^ 0xFF
  data ++ [folded &&& 0xFF]

/-- Checksum formula exactly as the specification words it: the complement
of the folded 16-bit sum seeded with the protected ID, low byte only. -/
def specChecksum (p : Nat) (d : List Nat) : Nat :=
  (((p + d.sum) % 256 + (p + d.sum) / 256) % 256) ^^^ 255

/-- LIN_send_request, inverter.c lines 141-155: returns the pair of
(bytes handed to UART_send, returned protected ID).  The break byte 0x00
is transmitted at the halved baud rate before the sync byte.  C's logical
negation !e yields 1 when e is zero and 0 otherwise. -/
def LIN_send_request (ID : Nat) : List Nat × Nat :=
  let parity_0 := (ID &&& 0x01) ^^^ ((ID >>> 1) &&& 0x01) ^^^ ((ID >>> 2) &&& 0x01) ^^^
    ((ID >>> 4) &&& 0x01)
  let parity_1 := (if ((ID >>> 1) &&& 0x01) ^^^ ((ID >>> 3) &&& 0x01) ^^^
      ((ID >>> 4) &&& 0x01) ^^^ ((ID >>> 5) &&& 0x01) = 0 then 1 else 0) <<< 1
  let ID_word := (ID &&& 0x3F) ||| ((parity_0 ||| parity_1) <<< 6)
  ([0x00, 0x55, ID_word], ID_word)

/-- Parity bit p0 as the specification words it: bit0 xor bit1 xor bit2 xor bit4. -/
def specParity0 (id : Nat) : Bool :=
  ((id.testBit 0).xor ((id.testBit 1).xor ((id.testBit 2).xor (id.testBit 4))))

/-- Parity bit p1 as the specification words it: the negation of
bit1 xor bit3 xor bit4 xor bit5. -/
def specParity1 (id : Nat) : Bool :=
  !((id.testBit 1).xor ((id.testBit 3).xor ((id.testBit 4).xor (id.testBit 5))))

/-- Protected ID as the specification words it:
(id mask 0x3F) or (p0 shifted left 6) or (p1 shifted left 7). -/
def specProtectedId (id : Nat) : Nat :=
  (id &&& 0x3F) ||| ((cond (specParity0 id) 1 0) <<< 6) ||| ((cond (specParity1 id) 1 0) <<< 7)

/-! ## UART ring buffers (inverter.c lines 53-63, 72-90, 99-130)

The receive and transmit buffers share one shape: an 8-slot byte array, a
read position, a write position and a count.  UART_send (lines 99-118)
enqueues into the transmit buffer exactly as the receive interrupt handler
(lines 73-79) enqueues into the receive buffer: when the buffer is full
the byte is silently dropped.  UART_read (lines 120-130) dequeues and
returns 0 when the buffer is empty.  The interrupt masking, the TI
arming and the bounded busy wait of UART_send do not touch the queue
discipline and are not modelled here. -/

structure RingBuf where
  storage : Nat → Nat
  rd : Nat
  wr : Nat
  count : Nat

/-- Enqueue: the buffer mutation of UART_send lines 101-105 (identical to
the receive-side mutation in UART_ISR lines 75-79).  The C code masks the
advanced position with the size mask 7, i.e. reduces it mod 8. -/
def UART_send (data : Nat) (s : RingBuf) : RingBuf :=
  if s.count < 8 then
    { storage := updFn s.storage s.wr data
      rd := s.rd
      wr := (s.wr + 1) % 8
      count := s.count + 1 }
  else s

/-- Dequeue: UART_read lines 120-130.  Returns 0 when the buffer is empty. -/
def UART_read (s : RingBuf) : Nat × RingBuf :=
  if 0 < s.count then
    (s.storage s.rd,
      { storage := s.storage, rd := (s.rd + 1) % 8, wr := s.wr, count := s.count - 1 })
  else (0, s)

/-- Representation invariant of a ring buffer: positions in range, count
bounded by the capacity, write position determined by read position and
count.  Established by the all-zero initial state of the C globals. -/
def RingInv (s : RingBuf) : Prop :=
  s.count ≤ 8 ∧ s.rd < 8 ∧ s.wr = (s.rd + s.count) % 8

/-- Abstraction of a ring buffer to the queue of pending bytes, oldest first. -/
def contents (s : RingBuf) : List Nat :=
  (List.range s.count).map (fun i => s.storage ((s.rd + i) % 8))

/-- One operation on a buffer: enqueue a byte or dequeue. -/
inductive BufOp where
  | enq : Nat → BufOp
  | deq : BufOp

/-- Run a sequence of operations on the ring buffer, collecting the bytes
returned by the dequeues in order. -/
def runOps : List BufOp → RingBuf → RingBuf × List Nat
  | [], s => (s, [])
  | BufOp.enq b :: rest, s => runOps rest (UART_send b s)
  | BufOp.deq :: rest, s =>
    let r := UART_read s
    let t := runOps rest r.2
    (t.1, r.1 :: t.2)

/-- Reference model: a FIFO list queue of capacity 8 that drops on overflow
and yields 0 on underflow. -/
def lqEnq (b : Nat) (q : List Nat) : List Nat :=
  if q.length < 8 then q ++ [b] else q

/-- Reference model dequeue. -/
def lqDeq : List Nat → Nat × List Nat
  | [] => (0, [])
  | x :: xs => (x, xs)

/-- Run a sequence of operations on the reference list queue. -/
def runList : List BufOp → List Nat → List Nat × List Nat
  | [], q => (q, [])
  | BufOp.enq b :: rest, q => runList rest (lqEnq b q)
  | BufOp.deq :: rest, q =>
    let r := lqDeq q
    let t := runList rest r.2
    (t.1, r.1 :: t.2)

/-! ## LIN response collection (inverter.c lines 167-180) -/

/-- Body of the drain loop of LIN_read_response, lines 173-179: consume
every incoming byte, storing the first nine into the destination buffer
and discarding the rest.  The incoming list is the sequence of bytes the
receive buffer will yield until it reads empty. -/
def lrr_go : List Nat → (Nat → Nat) → Nat → (Nat → Nat) × Nat
  | [], dest, n => (dest, n)
  | b :: rest, dest, n =>
    if n < 9 then lrr_go rest (updFn dest n b) (n + 1) else lrr_go rest dest n

/-- LIN_read_response, lines 167-180.  The initial five 2ms polls (lines
168-172) either see a first byte or return 0; an empty incoming list
models the timeout and makes the drain loop return 0 as the C code does.
Returns the updated destination buffer and the byte count. -/
def LIN_read_response (dest : Nat → Nat) (incoming : List Nat) : (Nat → Nat) × Nat :=
  lrr_go incoming dest 0

/-! ## Battery power-good debounce (inverter.c lines 182-190) -/

/-- Loop of is_power_good, lines 184-188, with the fuel counting remaining
iterations, i the index of the next sample and uv the undervoltage count.
Returns the boolean result and the number of samples consumed. -/
def ipg_go (pg : Nat → Bool) : Nat → Nat → Nat → Bool × Nat
  | 0, i, _ => (true, i)
  | n + 1, i, uv =>
    let uv2 := uv + (if pg i then 0 else 1)
    if 5 ≤ uv2 then (false, i + 1) else ipg_go pg n (i + 1) uv2

/-- is_power_good, lines 182-190: sample the P_GOOD input up to ten times,
return false as soon as five samples read not good. -/
def is_power_good (pg : Nat → Bool) : Bool × Nat :=
  ipg_go pg 10 0 0

/-- Number of not-good samples among the first n reads of the input. -/
def badCount (pg : Nat → Bool) (n : Nat) : Nat :=
  (List.range n).countP (fun j => pg j = false)

/-! ## start_inverter (inverter.c lines 199-230)

The peer is modelled by resp, giving for outer round i and inner poll j the
list of bytes that LIN_read_response will collect after the status request
of that poll (empty list: no response).  The auxiliary 5V rail POW_5V is
modelled by rail, sampled once per wakeup attempt.  The global resp_buff
persists across calls, so the model threads it as dest. -/

/-- Wakeup loop of start_inverter, lines 200-204: up to three attempts,
returns true when the rail was seen present, false when the loop falls into
the early-exit check at attempt index 2 with the rail still absent. -/
def si_wake (rail : Nat → Bool) : Nat → Nat → Bool
  | 0, _ => false
  | n + 1, i => if rail i then true else if i = 2 then false else si_wake rail n (i + 1)

/-- Inner poll loop of start_inverter, lines 210-222.  none means the
function returned 0 (both status flags seen set); some gives the state at
loop exit: destination buffer, no_resp flag, PGOOD_fail flag. -/
def si_inner (resp : Nat → List Nat) :
    Nat → Nat → (Nat → Nat) → Bool → Bool → Option ((Nat → Nat) × Bool × Bool)
  | 0, _, dest, nr, pf => some (dest, nr, pf)
  | n + 1, j, dest, nr, pf =>
    let r := LIN_read_response dest (resp j)
    let nr2 := if 0 < r.2 then false else nr
    if r.2 < 3 then si_inner resp n (j + 1) r.1 nr2 pf
    else if r.1 1 &&& 0x01 = 0 then si_inner resp n (j + 1) r.1 nr2 pf
    else if r.1 1 &&& 0x02 = 0 then si_inner resp n (j + 1) r.1 nr2 true
    else none

/-- Outer round loop of start_inverter, lines 205-228: the loop bound is
10 but the classification at round index 2 always returns first; the
trailing STARTUP_ERROR of line 229 is the fall-through value. -/
def si_outer (resp : Nat → Nat → List Nat) : Nat → Nat → (Nat → Nat) → Nat
  | 0, _, _ => STARTUP_ERROR
  | n + 1, i, dest =>
    match si_inner (resp i) 10 0 dest true false with
    | none => 0
    | some (dest2, nr, pf) =>
      if i = 2 then (if nr then RESP_ERROR else if pf then PGOOD_ERROR else STARTUP_ERROR)
      else si_outer resp n (i + 1) dest2

/-- start_inverter, lines 199-230. -/
def start_inverter (rail : Nat → Bool) (resp : Nat → Nat → List Nat)
    (dest : Nat → Nat) : Nat :=
  if si_wake rail 3 0 then si_outer resp 10 0 dest else WAKEUP_ERROR

/-- A status response that start_inverter accepts for success: at least
three bytes collected and both low bits of byte 1 set (lines 215-221). -/
def respGood (bytes : List Nat) : Prop :=
  3 ≤ bytes.length ∧ bytes.getD 1 0 &&& 0x01 ≠ 0 ∧ bytes.getD 1 0 &&& 0x02 ≠ 0

/-- A status response that sets the PGOOD_fail flag: at least three bytes,
acknowledged bit set, power-good bit clear (lines 217-220). -/
def respAckNoPG (bytes : List Nat) : Prop :=
  3 ≤ bytes.length ∧ bytes.getD 1 0 &&& 0x01 ≠ 0 ∧ bytes.getD 1 0 &&& 0x02 = 0

instance (bytes : List Nat) : Decidable (respGood bytes) := by
  unfold respGood; infer_instance

instance (bytes : List Nat) : Decidable (respAckNoPG bytes) := by
  unfold respAckNoPG; infer_instance

/-! ## stop_inverter (inverter.c lines 232-259)

rail models the POW_5V input as a stream of samples consumed in program
order: sample 0 at the entry check of line 233, one sample per power-cut
pulse (line 249), one sample per second of the final wait (line 257).
The returned Nat is the total number of rail samples consumed. -/

/-- How stop_inverter exited. -/
inductive StopExit where
  | alreadyOff : StopExit
  | confirmedNoCut : Nat → Nat → StopExit
  | cutDropped : Nat → Nat → Nat → StopExit
  | autoDropped : Nat → StopExit
  | gaveUp : StopExit
deriving DecidableEq

/-- Scan up to fuel rail samples starting at stream position t with local
index k: the pattern of the pulse loop (lines 245-250) and of the final
wait loop (lines 255-258).  Returns the local index of the first sample
that read absent, if any, and the next stream position. -/
def railScan (rail : Nat → Bool) : Nat → Nat → Nat → Option Nat × Nat
  | 0, _, t => (none, t)
  | n + 1, k, t => if rail t then railScan rail n (k + 1) (t + 1) else (some k, t + 1)

/-- Result of one inner poll loop of stop_inverter. -/
inductive StopInnerRes where
  | cont : (Nat → Nat) → StopInnerRes
  | ret : StopExit → Nat → StopInnerRes
  | toPost : Nat → StopInnerRes

/-- Inner poll loop of stop_inverter, lines 237-252, for round i: a
response confirms the stop when at least three bytes were collected, the
destination buffer then holds 0xFF at index 3 and a cleared bit 0 at
index 1 (note byte 3 of the buffer is stale when exactly three bytes
arrive).  On confirmation with cut_power the pulse loop runs; exhausting
its ten pulses executes the i = 3 break of line 251, leaving the round
loop into the final wait. -/
def stop_inner (resp : Nat → List Nat) (rail : Nat → Bool) (cut : Bool) (i : Nat) :
    Nat → Nat → (Nat → Nat) → Nat → StopInnerRes
  | 0, _, dest, _ => StopInnerRes.cont dest
  | n + 1, j, dest, t =>
    let r := LIN_read_response dest (resp j)
    if r.2 < 3 then stop_inner resp rail cut i n (j + 1) r.1 t
    else if r.1 3 ≠ 0xFF then stop_inner resp rail cut i n (j + 1) r.1 t
    else if r.1 1 &&& 0x01 ≠ 0 then stop_inner resp rail cut i n (j + 1) r.1 t
    else if cut = false then StopInnerRes.ret (StopExit.confirmedNoCut i j) t
    else
      match railScan rail 10 0 t with
      | (some k, t2) => StopInnerRes.ret (StopExit.cutDropped i j k) t2
      | (none, t2) => StopInnerRes.toPost t2

/-- Final wait of stop_inverter, lines 255-259: up to ten one-second
checks for the rail to drop on its own. -/
def stop_post (rail : Nat → Bool) (t : Nat) : StopExit × Nat :=
  match railScan rail 10 0 t with
  | (some m, t2) => (StopExit.autoDropped m, t2)
  | (none, t2) => (StopExit.gaveUp, t2)

/-- Round loop of stop_inverter, lines 234-254, falling into the final
wait when the rounds are exhausted or when the pulse loop gave up. -/
def stop_outer (resp : Nat → Nat → List Nat) (rail : Nat → Bool) (cut : Bool) :
    Nat → Nat → (Nat → Nat) → Nat → StopExit × Nat
  | 0, _, _, t => stop_post rail t
  | n + 1, i, dest, t =>
    match stop_inner (resp i) rail cut i 10 0 dest t with
    | StopInnerRes.ret e t2 => (e, t2)
    | StopInnerRes.toPost t2 => stop_post rail t2
    | StopInnerRes.cont dest2 => stop_outer resp rail cut n (i + 1) dest2 t

/-- stop_inverter, lines 232-259. -/
def stop_inverter (rail : Nat → Bool) (resp : Nat → Nat → List Nat) (cut : Bool)
    (dest : Nat → Nat) : StopExit × Nat :=
  if rail 0 then stop_outer resp rail cut 3 0 dest 1 else (StopExit.alreadyOff, 1)

/-- Stop confirmation test exactly as stop_inverter performs it on the
buffer returned by LIN_read_response (lines 241-243). -/
def stopConfirm (dest : Nat → Nat) (bytes : List Nat) : Prop :=
  3 ≤ (LIN_read_response dest bytes).2 ∧
    (LIN_read_response dest bytes).1 3 = 0xFF ∧
    (LIN_read_response dest bytes).1 1 &&& 0x01 = 0

/-! ## enough_power_drawn (inverter.c lines 261-273) -/

/-- Loop of enough_power_drawn, lines 263-271: a poll counts toward the
load tally only when at least three bytes were collected, bit 0 of buffer
byte 1 is set and buffer byte 3 is the 0xFF validity marker; the tally
counts polls whose buffer byte 0 is nonzero, and five of them return true
early. -/
def epd_go (resp : Nat → List Nat) : Nat → Nat → (Nat → Nat) → Nat → Bool
  | 0, _, _, _ => false
  | n + 1, j, dest, s =>
    let r := LIN_read_response dest (resp j)
    if r.2 < 3 ∨ r.1 1 &&& 0x01 = 0 ∨ r.1 3 ≠ 0xFF then epd_go resp n (j + 1) r.1 s
    else
      let s2 := s + (if 0 < r.1 0 then 1 else 0)
      if 5 ≤ s2 then true else epd_go resp n (j + 1) r.1 s2

/-- enough_power_drawn, lines 261-273. -/
def enough_power_drawn (resp : Nat → List Nat) (dest : Nat → Nat) : Bool :=
  epd_go resp 10 0 dest 0

/-! ## Control loop pieces (inverter.c main, lines 295-365) -/

/-- Observable effects of the no-load branch of the control loop
(lines 335-350), taken when drawn_power_detect is set and
enough_power_drawn returned false.  stopCut records the argument passed
to stop_inverter, waits the successive wait_if_plugged arguments in units
of roughly 100ms, wakeup whether LIN_wakeup was re-issued. -/
structure NoLoadEffects where
  stopCut : Bool
  wakeup : Bool
  waits : List Nat
  newCounter : Nat
deriving DecidableEq

/-- The no-load branch, lines 337-349, as a function of the entry value of
no_load_counter. -/
def noLoadBranch (c : Nat) : NoLoadEffects :=
  if 60 ≤ c then
    { stopCut := true, wakeup := false, waits := [133], newCounter := c }
  else
    let c2 := c + 1
    if 20 ≤ c2 then
      { stopCut := false, wakeup := true, waits := [18, 30], newCounter := c2 }
    else
      { stopCut := false, wakeup := false, waits := [18], newCounter := c2 }

/-- One iteration of the low-battery bookkeeping of the control loop,
lines 313-324: given the result of is_power_good and the current
low_batt_counter, returns the new counter and whether the iteration
entered permanent power-down. -/
def lowBattStep (good : Bool) (c : Nat) : Nat × Bool :=
  if good then (0, false) else (c + 1, 5 ≤ c + 1)

/-- Iterate lowBattStep from the given counter over a list of
is_power_good results; some n means permanent shutdown was entered on the
iteration with index n. -/
def lowBattRun : List Bool → Nat → Option Nat
  | [], _ => none
  | g :: rest, c =>
    let s := lowBattStep g c
    if s.2 then some 0 else (lowBattRun rest s.1).map (fun m => m + 1)

/-- Five consecutive not-good results ending at index n, phrased over the
trace: the shutdown condition the specification describes. -/
def shutdownWindow (l : List Bool) (n : Nat) : Prop :=
  4 ≤ n ∧ ∀ k < 5, l.getD (n - k) true = false

/-- Window condition generalised to a run starting at counter c: the
virtual c not-good results preceding the trace may contribute. -/
def winC (c : Nat) (l : List Bool) (n : Nat) : Prop :=
  5 ≤ c + n + 1 ∧ ∀ k < min 5 (n + 1), l.getD (n - k) true = false

instance (l : List Bool) (n : Nat) : Decidable (shutdownWindow l n) := by
  unfold shutdownWindow; infer_instance

instance (c : Nat) (l : List Bool) (n : Nat) : Decidable (winC c l n) := by
  unfold winC; infer_instance

/-- Peer behaviour refuting the cross-round response tracking: a single
one-byte response at round 0 poll 0, silence afterwards. -/
def cexRespC3 : Nat → Nat → List Nat :=
  fun i j => if i = 0 ∧ j = 0 then [7] else []

/-! ## Theorems for C1 and C2 -/

theorem foldl_mod_eq (d : List Nat) : ∀ p : Nat, p + d.sum < 65536 →
    d.foldl (fun a b => (a + b) % 65536) p = p + d.sum := by
  induction d with
  | nil => intro p _; simp
  | cons b rest ih =>
    intro p h
    simp only [List.foldl_cons, List.sum_cons] at *
    have hb : (p + b) % 65536 = p + b := Nat.mod_eq_of_lt (by omega)
    rw [hb, ih (p + b) (by omega)]
    omega

theorem sum_le_of_bytes (d : List Nat) (h : ∀ b ∈ d, b < 256) :
    d.sum ≤ 255 * d.length := by
  induction d with
  | nil => simp
  | cons b rest ih =>
    simp only [List.sum_cons, List.length_cons]
    have hb : b < 256 := h b (List.mem_cons_self b rest)
    have := ih (fun x hx => h x (List.mem_cons_of_mem b hx))
    omega

theorem xor_mask_fold : ∀ y < 512, ((y ^^^ 255) &&& 255) = (y % 256) ^^^ 255 := by decide

/-- C1: LIN_send_data transmits the payload bytes in order followed by one
checksum byte matching the specification formula; the test vector for
protected ID 0xBA with payload 0x02 0x00 yields checksum 0x43. -/
theorem LIN_send_data_correct (p : Nat) (d : List Nat) (hp : p < 256)
    (hlen : d.length ≤ 8) (hbytes : ∀ b ∈ d, b < 256) :
    LIN_send_data d p = d ++ [specChecksum p d] ∧
    LIN_send_data [0x02, 0x00] 0xBA = [0x02, 0x00, 0x43] := by
  constructor
  · have hsum : d.sum ≤ 2040 := by
      have := sum_le_of_bytes d hbytes
      have : 255 * d.length ≤ 255 * 8 := Nat.mul_le_mul_left 255 hlen
      omega
    have hpm : p % 65536 = p := Nat.mod_eq_of_lt (by omega)
    have hfold : d.foldl (fun a b => (a + b) % 65536) (p % 65536) = p + d.sum := by
      rw [hpm]; exact foldl_mod_eq d p (by omega)
    have hand : (p + d.sum) &&& 0xFF = (p + d.sum) % 256 := by
      have := Nat.and_pow_two_sub_one_eq_mod (p + d.sum) 8
      norm_num at this
      exact this
    have hshift : (p + d.sum) >>> 8 = (p + d.sum) / 256 := by
      have := Nat.shiftRight_eq_div_pow (p + d.sum) 8
      norm_num at this
      exact this
    have hy : (p + d.sum) % 256 + (p + d.sum) / 256 < 512 := by
      have h1 : (p + d.sum) % 256 < 256 := Nat.mod_lt _ (by norm_num)
      have h2 : (p + d.sum) / 256 ≤ 255 := by omega
      omega
    simp only [LIN_send_data, specChecksum]
    rw [hfold, hand, hshift, xor_mask_fold _ hy]
  · decide

/-- Witness for C1: instantiating at the test vector. -/
theorem LIN_send_data_correct_witness :
    ((0xBA : Nat) < 256 ∧ ([0x02, 0x00] : List Nat).length ≤ 8 ∧
      (∀ b ∈ ([0x02, 0x00] : List Nat), b < 256)) ∧
    (LIN_send_data [0x02, 0x00] 0xBA = [0x02, 0x00] ++ [specChecksum 0xBA [0x02, 0x00]] ∧
      LIN_send_data [0x02, 0x00] 0xBA = [0x02, 0x00, 0x43]) :=
  ⟨⟨by decide, by decide, by decide⟩,
    LIN_send_data_correct 0xBA [0x02, 0x00] (by decide) (by decide) (by decide)⟩

/-- C2: for every 6-bit id, LIN_send_request transmits the break 0x00, the
sync byte 0x55 and then the protected ID built from the two parity bits the
specification describes, returns that protected ID, and id 0x3A yields 0xBA. -/
theorem LIN_send_request_correct : ∀ id < 64,
    LIN_send_request id = ([0x00, 0x55, specProtectedId id], specProtectedId id) ∧
    specProtectedId 0x3A = 0xBA := by decide

/-- Witness for C2: instantiating at id 0x3A. -/
theorem LIN_send_request_correct_witness :
    (0x3A : Nat) < 64 ∧
    (LIN_send_request 0x3A = ([0x00, 0x55, specProtectedId 0x3A], specProtectedId 0x3A) ∧
      specProtectedId 0x3A = 0xBA) :=
  ⟨by decide, LIN_send_request_correct 0x3A (by decide)⟩

/-! ## Theorems for C9: LIN_read_response bounds -/

theorem lrr_go_spec (incoming : List Nat) : ∀ dest n, n ≤ 9 →
    (lrr_go incoming dest n).2 = min (n + incoming.length) 9 ∧
    ∀ k, (lrr_go incoming dest n).1 k =
      if n ≤ k ∧ k < min (n + incoming.length) 9 then incoming.getD (k - n) 0 else dest k := by
  induction incoming with
  | nil =>
    intro dest n hn
    constructor
    · simp [lrr_go]; omega
    · intro k
      simp only [lrr_go, List.length_nil, Nat.add_zero]
      rw [if_neg (by omega)]
  | cons b rest ih =>
    intro dest n hn
    by_cases h9 : n < 9
    · have hrec := ih (updFn dest n b) (n + 1) (by omega)
      constructor
      · simp only [lrr_go, if_pos h9, List.length_cons]
        rw [hrec.1]
        omega
      · intro k
        simp only [lrr_go, if_pos h9, List.length_cons]
        rw [hrec.2 k]
        rcases Nat.lt_trichotomy k n with hk | hk | hk
        · rw [if_neg (by omega), if_neg (by omega)]
          simp [updFn]
          omega
        · subst hk
          rw [if_neg (by omega), if_pos (by omega)]
          simp [updFn]
        · by_cases hin : k < min (n + (rest.length + 1)) 9
          · rw [if_pos (by omega), if_pos (by omega)]
            have : k - n = (k - (n + 1)) + 1 := by omega
            rw [this]
            simp
          · rw [if_neg (by omega), if_neg (by omega)]
            simp [updFn]
            omega
    · have hn9 : n = 9 := by omega
      subst hn9
      have hrec := ih dest 9 (by omega)
      constructor
      · simp only [lrr_go, if_neg (by omega : ¬ (9 : Nat) < 9), List.length_cons]
        rw [hrec.1]
        omega
      · intro k
        simp only [lrr_go, if_neg (by omega : ¬ (9 : Nat) < 9), List.length_cons]
        rw [hrec.2 k]
        by_cases hin : 9 ≤ k ∧ k < min (9 + rest.length) 9
        · omega
        · rw [if_neg hin, if_neg (by omega)]

/-- C9: LIN_read_response stores at most nine bytes, only at destination
indices 0 to 8, returns a count between 0 and 9, and consumes but
discards every byte beyond the ninth: the count stays at 9 and the
destination beyond index 8 is untouched no matter how long the incoming
sequence is. -/
theorem LIN_read_response_bounds (incoming : List Nat) (dest : Nat → Nat) :
    (LIN_read_response dest incoming).2 = min incoming.length 9 ∧
    (LIN_read_response dest incoming).2 ≤ 9 ∧
    ∀ k, (LIN_read_response dest incoming).1 k =
      if k < min incoming.length 9 then incoming.getD k 0 else dest k := by
  have h := lrr_go_spec incoming dest 0 (by omega)
  unfold LIN_read_response
  refine ⟨?_, ?_, ?_⟩
  · rw [h.1]; omega
  · rw [h.1]; omega
  · intro k
    rw [h.2 k]
    simp

/-! ## Theorems for C8: is_power_good -/

theorem badCount_succ (pg : Nat → Bool) (i : Nat) :
    badCount pg (i + 1) = badCount pg i + (if pg i then 0 else 1) := by
  unfold badCount
  rw [List.range_succ, List.countP_append]
  cases h : pg i <;> simp [h]

theorem badCount_mono (pg : Nat → Bool) {i j : Nat} (h : i ≤ j) :
    badCount pg i ≤ badCount pg j :=
  List.Sublist.countP_le _ (List.range_sublist.mpr h)

theorem ipg_go_spec (pg : Nat → Bool) : ∀ n i uv, i + n = 10 → uv = badCount pg i → uv < 5 →
    ((ipg_go pg n i uv).1 = false ↔ 5 ≤ badCount pg 10) ∧
    ((ipg_go pg n i uv).1 = true → (ipg_go pg n i uv).2 = 10) ∧
    ((ipg_go pg n i uv).1 = false →
      badCount pg (ipg_go pg n i uv).2 = 5 ∧ pg ((ipg_go pg n i uv).2 - 1) = false) := by
  intro n
  induction n with
  | zero =>
    intro i uv hi huv hlt
    have hi10 : i = 10 := by omega
    subst hi10
    refine ⟨by simp [ipg_go]; omega, by simp [ipg_go], by simp [ipg_go]⟩
  | succ n ih =>
    intro i uv hi huv hlt
    have hstep : uv + (if pg i then 0 else 1) = badCount pg (i + 1) := by
      rw [badCount_succ]; omega
    simp only [ipg_go]
    by_cases h5 : 5 ≤ uv + (if pg i then 0 else 1)
    · have hpgi : pg i = false := by
        cases h : pg i with
        | false => rfl
        | true =>
          exfalso
          rw [h] at h5
          simp at h5
          omega
      have huv5 : uv + (if pg i then 0 else 1) = 5 := by
        rw [hpgi] at h5 ⊢
        simp at h5 ⊢
        omega
      rw [if_pos h5]
      refine ⟨?_, by simp, ?_⟩
      · simp only [true_iff]
        have : badCount pg (i + 1) = 5 := by omega
        have := badCount_mono pg (show i + 1 ≤ 10 by omega)
        omega
      · intro _
        simp only [Nat.add_sub_cancel]
        exact ⟨by omega, hpgi⟩
    · rw [if_neg h5]
      exact ih (i + 1) (uv + (if pg i then 0 else 1)) (by omega) (by omega) (by omega)

/-- C8: is_power_good returns false exactly when at least five of its up
to ten samples read not good; when it returns true it consumed all ten
samples; when it returns false it stopped at the sample that brought the
not-good tally to five — that sample itself read not good and the tally
over the consumed samples is exactly five. -/
theorem is_power_good_correct (pg : Nat → Bool) :
    ((is_power_good pg).1 = false ↔ 5 ≤ badCount pg 10) ∧
    ((is_power_good pg).1 = true → (is_power_good pg).2 = 10) ∧
    ((is_power_good pg).1 = false →
      badCount pg (is_power_good pg).2 = 5 ∧ pg ((is_power_good pg).2 - 1) = false) := by
  have h := ipg_go_spec pg 10 0 0 (by omega) (by simp [badCount]) (by omega)
  exact h

/-- Witness for C8: alternating samples give exactly five not-good reads,
and the sampler reports not-good after consuming all ten. -/
theorem is_power_good_correct_witness :
    5 ≤ badCount (fun i => decide (i % 2 = 0)) 10 ∧
    (is_power_good (fun i => decide (i % 2 = 0))).1 = false :=
  ⟨by decide, (is_power_good_correct (fun i => decide (i % 2 = 0))).1.mpr (by decide)⟩

/-! ## Theorems for C6: ring buffer FIFO discipline -/

theorem contents_length (s : RingBuf) : (contents s).length = s.count := by
  simp [contents]

theorem UART_send_full (b : Nat) (s : RingBuf) (h : s.count = 8) : UART_send b s = s := by
  simp [UART_send, h]

theorem UART_read_empty (s : RingBuf) (h : s.count = 0) : UART_read s = (0, s) := by
  simp [UART_read, h]

theorem UART_send_refines (b : Nat) (s : RingBuf) (h : RingInv s) :
    RingInv (UART_send b s) ∧
    contents (UART_send b s) = lqEnq b (contents s) := by
  obtain ⟨hc, hr, hw⟩ := h
  by_cases hlt : s.count < 8
  · constructor
    · refine ⟨by simp [UART_send, hlt]; omega, by simp [UART_send, hlt, hr], ?_⟩
      simp only [UART_send, if_pos hlt]
      rw [hw]
      omega
    · have hlen : (contents s).length < 8 := by rw [contents_length]; exact hlt
      rw [lqEnq, if_pos hlen]
      simp only [UART_send, if_pos hlt, contents]
      rw [List.range_succ, List.map_append]
      congr 1
      · apply List.map_congr_left
        intro i hi
        have hi8 : i < s.count := List.mem_range.mp hi
        simp only [updFn]
        rw [if_neg]
        rw [hw]
        omega
      · simp only [List.map_cons, List.map_nil, updFn]
        rw [if_pos (by rw [hw])]
  · have hc8 : s.count = 8 := by omega
    rw [UART_send_full b s hc8]
    refine ⟨⟨hc, hr, hw⟩, ?_⟩
    simp [lqEnq, contents_length, hc8]

theorem UART_read_refines (s : RingBuf) (h : RingInv s) (hpos : 0 < s.count) :
    RingInv (UART_read s).2 ∧
    (UART_read s).1 = (contents s).headD 0 ∧
    contents (UART_read s).2 = (contents s).tail := by
  obtain ⟨hc, hr, hw⟩ := h
  have hread : UART_read s =
      (s.storage s.rd,
        { storage := s.storage, rd := (s.rd + 1) % 8, wr := s.wr, count := s.count - 1 }) := by
    simp [UART_read, hpos]
  obtain ⟨m, hm⟩ : ∃ m, s.count = m + 1 := ⟨s.count - 1, by omega⟩
  have hcont : contents s =
      s.storage ((s.rd + 0) % 8) ::
        (List.range m).map (fun i => s.storage ((s.rd + (i + 1)) % 8)) := by
    unfold contents
    rw [hm, List.range_succ_eq_map, List.map_cons, List.map_map]
    rfl
  refine ⟨?_, ?_, ?_⟩
  · rw [hread]
    refine ⟨by simp; omega, by simp [Nat.mod_lt], ?_⟩
    simp only
    rw [hw]
    omega
  · rw [hread, hcont]
    simp only [List.headD_cons]
    congr 1
    omega
  · rw [hread, hcont]
    simp only [List.tail_cons]
    unfold contents
    simp only [hm, Nat.add_sub_cancel]
    apply List.map_congr_left
    intro i hi
    congr 1
    omega

theorem lqDeq_eq (q : List Nat) : lqDeq q = (q.headD 0, q.tail) := by
  cases q <;> rfl

theorem runOps_refines : ∀ (ops : List BufOp) (s : RingBuf), RingInv s →
    RingInv (runOps ops s).1 ∧
    contents (runOps ops s).1 = (runList ops (contents s)).1 ∧
    (runOps ops s).2 = (runList ops (contents s)).2 := by
  intro ops
  induction ops with
  | nil =>
    intro s h
    exact ⟨h, rfl, rfl⟩
  | cons op rest ih =>
    intro s h
    cases op with
    | enq b =>
      have hs := UART_send_refines b s h
      have hr := ih (UART_send b s) hs.1
      simp only [runOps, runList]
      rw [← hs.2]
      exact hr
    | deq =>
      by_cases hpos : 0 < s.count
      · have hs := UART_read_refines s h hpos
        have hr := ih (UART_read s).2 hs.1
        simp only [runOps, runList, lqDeq_eq]
        rw [← hs.2.2, ← hs.2.1]
        exact ⟨hr.1, hr.2.1, by rw [hr.2.2]⟩
      · have hc0 : s.count = 0 := by omega
        have hnil : contents s = [] := by
          have := contents_length s
          rw [hc0] at this
          exact List.length_eq_zero.mp this
        have hr := ih s h
        simp only [runOps, runList, lqDeq_eq, UART_read_empty s hc0]
        rw [hnil]
        simp only [List.headD_nil, List.tail_nil]
        rw [← hnil]
        exact ⟨hr.1, hr.2.1, by rw [hr.2.2]⟩

/-- C6: each ring buffer, started from any state satisfying the
representation invariant, behaves as the capacity-8 FIFO list queue: the
bytes returned by the dequeues of any operation sequence are those of the
reference FIFO run (dequeue order equals enqueue order), the count never
exceeds 8 at any point of the run, an enqueue with the buffer full is a
no-op that discards the byte, and a dequeue with the buffer empty returns
the sentinel 0 and leaves the buffer unchanged. -/
theorem ring_buffer_fifo (ops : List BufOp) (s : RingBuf) (h : RingInv s) :
    (runOps ops s).2 = (runList ops (contents s)).2 ∧
    (∀ n, (runOps (ops.take n) s).1.count ≤ 8) ∧
    (∀ b, s.count = 8 → UART_send b s = s) ∧
    (s.count = 0 → UART_read s = (0, s)) := by
  refine ⟨(runOps_refines ops s h).2.2, ?_, ?_, ?_⟩
  · intro n
    exact (runOps_refines (ops.take n) s h).1.1
  · intro b hb
    exact UART_send_full b s hb
  · intro h0
    exact UART_read_empty s h0

/-- Witness for C6: a concrete run on the empty buffer, enqueueing two
bytes and dequeueing three times, yields the bytes in FIFO order followed
by the sentinel. -/
theorem ring_buffer_fifo_witness :
    RingInv ⟨fun _ => 0, 0, 0, 0⟩ ∧
    ((runOps [BufOp.enq 1, BufOp.enq 2, BufOp.deq, BufOp.deq, BufOp.deq]
        ⟨fun _ => 0, 0, 0, 0⟩).2 =
      (runList [BufOp.enq 1, BufOp.enq 2, BufOp.deq, BufOp.deq, BufOp.deq]
        (contents ⟨fun _ => 0, 0, 0, 0⟩)).2 ∧
      (∀ n, (runOps ([BufOp.enq 1, BufOp.enq 2, BufOp.deq, BufOp.deq, BufOp.deq].take n)
          ⟨fun _ => 0, 0, 0, 0⟩).1.count ≤ 8) ∧
      (∀ b, (⟨fun _ => 0, 0, 0, 0⟩ : RingBuf).count = 8 →
        UART_send b ⟨fun _ => 0, 0, 0, 0⟩ = ⟨fun _ => 0, 0, 0, 0⟩) ∧
      ((⟨fun _ => 0, 0, 0, 0⟩ : RingBuf).count = 0 →
        UART_read ⟨fun _ => 0, 0, 0, 0⟩ = (0, ⟨fun _ => 0, 0, 0, 0⟩))) :=
  ⟨⟨by decide, by decide, by decide⟩,
    ring_buffer_fifo [BufOp.enq 1, BufOp.enq 2, BufOp.deq, BufOp.deq, BufOp.deq]
      ⟨fun _ => 0, 0, 0, 0⟩ ⟨by decide, by decide, by decide⟩⟩

/-! ## Theorems for C3 and C10: start_inverter -/

theorem lrr_read_count (dest : Nat → Nat) (bytes : List Nat) :
    (LIN_read_response dest bytes).2 = min bytes.length 9 :=
  (LIN_read_response_bounds bytes dest).1

theorem lrr_byte1 (dest : Nat → Nat) (bytes : List Nat) (h : 2 ≤ bytes.length) :
    (LIN_read_response dest bytes).1 1 = bytes.getD 1 0 := by
  rw [(LIN_read_response_bounds bytes dest).2.2 1, if_pos (by omega)]

theorem exists_lt_succ_shift (P : Nat → Prop) (j n : Nat) :
    (∃ k < n + 1, P (j + k)) ↔ P j ∨ ∃ k < n, P (j + 1 + k) := by
  constructor
  · rintro ⟨k, hk, hp⟩
    cases k with
    | zero => exact Or.inl (by simpa using hp)
    | succ k2 =>
      refine Or.inr ⟨k2, by omega, ?_⟩
      have : j + (k2 + 1) = j + 1 + k2 := by omega
      rw [this] at hp
      exact hp
  · rintro (hp | ⟨k, hk, hp⟩)
    · exact ⟨0, by omega, by simpa using hp⟩
    · refine ⟨k + 1, by omega, ?_⟩
      have : j + (k + 1) = j + 1 + k := by omega
      rw [this]
      exact hp

theorem forall_lt_succ_shift (P : Nat → Prop) (j n : Nat) :
    (∀ k < n + 1, P (j + k)) ↔ P j ∧ ∀ k < n, P (j + 1 + k) := by
  constructor
  · intro h
    refine ⟨by simpa using h 0 (by omega), ?_⟩
    intro k hk
    have hp := h (k + 1) (by omega)
    have : j + (k + 1) = j + 1 + k := by omega
    rw [this] at hp
    exact hp
  · rintro ⟨h0, h⟩ k hk
    cases k with
    | zero => simpa using h0
    | succ k2 =>
      have : j + (k2 + 1) = j + 1 + k2 := by omega
      rw [this]
      exact h k2 (by omega)

theorem si_inner_succ (resp : Nat → List Nat) (n j : Nat) (dest : Nat → Nat) (nr pf : Bool) :
    si_inner resp (n + 1) j dest nr pf =
      (if (LIN_read_response dest (resp j)).2 < 3 then
        si_inner resp n (j + 1) (LIN_read_response dest (resp j)).1
          (if 0 < (LIN_read_response dest (resp j)).2 then false else nr) pf
      else if (LIN_read_response dest (resp j)).1 1 &&& 0x01 = 0 then
        si_inner resp n (j + 1) (LIN_read_response dest (resp j)).1
          (if 0 < (LIN_read_response dest (resp j)).2 then false else nr) pf
      else if (LIN_read_response dest (resp j)).1 1 &&& 0x02 = 0 then
        si_inner resp n (j + 1) (LIN_read_response dest (resp j)).1
          (if 0 < (LIN_read_response dest (resp j)).2 then false else nr) true
      else none) := rfl

theorem si_inner_spec (resp : Nat → List Nat) : ∀ (n j : Nat) (dest : Nat → Nat) (nr pf : Bool),
    (si_inner resp n j dest nr pf = none ↔ ∃ k < n, respGood (resp (j + k))) ∧
    (∀ dest2 nr2 pf2, si_inner resp n j dest nr pf = some (dest2, nr2, pf2) →
      ((nr2 = true) ↔ (nr = true ∧ ∀ k < n, resp (j + k) = [])) ∧
      ((pf2 = true) ↔ (pf = true ∨ ∃ k < n, respAckNoPG (resp (j + k))))) := by
  intro n
  induction n with
  | zero =>
    intro j dest nr pf
    constructor
    · simp [si_inner]
    · intro dest2 nr2 pf2 h
      simp only [si_inner, Option.some.injEq, Prod.mk.injEq] at h
      obtain ⟨-, h2, h3⟩ := h
      subst h2
      subst h3
      constructor
      · simp
      · simp
  | succ n ih =>
    intro j dest nr pf
    have hrc : (LIN_read_response dest (resp j)).2 = min (resp j).length 9 :=
      lrr_read_count dest (resp j)
    rw [si_inner_succ]
    by_cases hlen : (resp j).length < 3
    · have hngood : ¬ respGood (resp j) := by
        intro hg
        exact absurd hg.1 (by omega)
      have hnack : ¬ respAckNoPG (resp j) := by
        intro hg
        exact absurd hg.1 (by omega)
      rw [if_pos (by omega)]
      by_cases h0 : (resp j).length = 0
      · have hrz : ¬ 0 < (LIN_read_response dest (resp j)).2 := by omega
        rw [if_neg hrz]
        have hnil : resp j = [] := List.length_eq_zero.mp h0
        refine ⟨?_, ?_⟩
        · rw [(ih (j + 1) (LIN_read_response dest (resp j)).1 nr pf).1,
            exists_lt_succ_shift (fun x => respGood (resp x)) j n]
          simp [hngood]
        · intro dest2 nr2 pf2 h
          have hs := (ih (j + 1) (LIN_read_response dest (resp j)).1 nr pf).2 dest2 nr2 pf2 h
          refine ⟨?_, ?_⟩
          · rw [hs.1, forall_lt_succ_shift (fun x => resp x = []) j n]
            simp [hnil]
          · rw [hs.2, exists_lt_succ_shift (fun x => respAckNoPG (resp x)) j n]
            simp [hnack]
      · have hrz : 0 < (LIN_read_response dest (resp j)).2 := by omega
        rw [if_pos hrz]
        have hne : resp j ≠ [] := by
          intro hnil
          rw [hnil] at h0
          simp at h0
        refine ⟨?_, ?_⟩
        · rw [(ih (j + 1) (LIN_read_response dest (resp j)).1 false pf).1,
            exists_lt_succ_shift (fun x => respGood (resp x)) j n]
          simp [hngood]
        · intro dest2 nr2 pf2 h
          have hs := (ih (j + 1) (LIN_read_response dest (resp j)).1 false pf).2 dest2 nr2 pf2 h
          refine ⟨?_, ?_⟩
          · rw [hs.1, forall_lt_succ_shift (fun x => resp x = []) j n]
            simp [hne]
          · rw [hs.2, exists_lt_succ_shift (fun x => respAckNoPG (resp x)) j n]
            simp [hnack]
    · have hlen3 : 3 ≤ (resp j).length := by omega
      have hb1 : (LIN_read_response dest (resp j)).1 1 = (resp j).getD 1 0 :=
        lrr_byte1 dest (resp j) (by omega)
      have hrz : 0 < (LIN_read_response dest (resp j)).2 := by omega
      have hne : resp j ≠ [] := by
        intro hnil
        rw [hnil] at hlen3
        simp at hlen3
      rw [if_neg (by omega), if_pos hrz, hb1]
      by_cases hbit0 : (resp j).getD 1 0 &&& 0x01 = 0
      · have hngood : ¬ respGood (resp j) := fun hg => absurd hbit0 hg.2.1
        have hnack : ¬ respAckNoPG (resp j) := fun hg => absurd hbit0 hg.2.1
        rw [if_pos hbit0]
        refine ⟨?_, ?_⟩
        · rw [(ih (j + 1) (LIN_read_response dest (resp j)).1 false pf).1,
            exists_lt_succ_shift (fun x => respGood (resp x)) j n]
          simp [hngood]
        · intro dest2 nr2 pf2 h
          have hs := (ih (j + 1) (LIN_read_response dest (resp j)).1 false pf).2 dest2 nr2 pf2 h
          refine ⟨?_, ?_⟩
          · rw [hs.1, forall_lt_succ_shift (fun x => resp x = []) j n]
            simp [hne]
          · rw [hs.2, exists_lt_succ_shift (fun x => respAckNoPG (resp x)) j n]
            simp [hnack]
      · rw [if_neg hbit0]
        by_cases hbit1 : (resp j).getD 1 0 &&& 0x02 = 0
        · have hngood : ¬ respGood (resp j) := fun hg => absurd hbit1 hg.2.2
          have hack : respAckNoPG (resp j) := ⟨hlen3, hbit0, hbit1⟩
          rw [if_pos hbit1]
          refine ⟨?_, ?_⟩
          · rw [(ih (j + 1) (LIN_read_response dest (resp j)).1 false true).1,
              exists_lt_succ_shift (fun x => respGood (resp x)) j n]
            simp [hngood]
          · intro dest2 nr2 pf2 h
            have hs := (ih (j + 1) (LIN_read_response dest (resp j)).1 false true).2 dest2 nr2 pf2 h
            refine ⟨?_, ?_⟩
            · rw [hs.1, forall_lt_succ_shift (fun x => resp x = []) j n]
              simp [hne]
            · rw [hs.2, exists_lt_succ_shift (fun x => respAckNoPG (resp x)) j n]
              simp [hack]
        · have hgood : respGood (resp j) := ⟨hlen3, hbit0, hbit1⟩
          rw [if_neg hbit1]
          refine ⟨?_, ?_⟩
          · constructor
            · intro _
              exact ⟨0, by omega, by simpa using hgood⟩
            · intro _
              rfl
          · intro dest2 nr2 pf2 h
            simp at h

theorem si_inner_spec0 (resp : Nat → List Nat) (dest : Nat → Nat) (nr pf : Bool) :
    (si_inner resp 10 0 dest nr pf = none ↔ ∃ k < 10, respGood (resp k)) ∧
    (∀ dest2 nr2 pf2, si_inner resp 10 0 dest nr pf = some (dest2, nr2, pf2) →
      ((nr2 = true) ↔ (nr = true ∧ ∀ k < 10, resp k = [])) ∧
      ((pf2 = true) ↔ (pf = true ∨ ∃ k < 10, respAckNoPG (resp k)))) := by
  have h := si_inner_spec resp 10 0 dest nr pf
  simpa using h

theorem si_outer_succ (resp : Nat → Nat → List Nat) (n i : Nat) (dest : Nat → Nat) :
    si_outer resp (n + 1) i dest =
      (match si_inner (resp i) 10 0 dest true false with
      | none => 0
      | some x =>
        if i = 2 then
          (if x.2.1 then RESP_ERROR else if x.2.2 then PGOOD_ERROR else STARTUP_ERROR)
        else si_outer resp n (i + 1) x.1) := by
  show si_outer resp (n + 1) i dest = _
  rw [si_outer]
  rcases h : si_inner (resp i) 10 0 dest true false with - | ⟨d, nr, pf⟩ <;> rfl

theorem si_outer_spec (resp : Nat → Nat → List Nat) (dest : Nat → Nat) :
    ((si_outer resp 10 0 dest = 0) ↔
      ((∃ j < 10, respGood (resp 0 j)) ∨ (∃ j < 10, respGood (resp 1 j)) ∨
        (∃ j < 10, respGood (resp 2 j)))) ∧
    (¬ ((∃ j < 10, respGood (resp 0 j)) ∨ (∃ j < 10, respGood (resp 1 j)) ∨
        (∃ j < 10, respGood (resp 2 j))) →
      ((∀ j < 10, resp 2 j = []) → si_outer resp 10 0 dest = RESP_ERROR) ∧
      ((¬ ∀ j < 10, resp 2 j = []) →
        ((∃ j < 10, respAckNoPG (resp 2 j)) → si_outer resp 10 0 dest = PGOOD_ERROR) ∧
        ((¬ ∃ j < 10, respAckNoPG (resp 2 j)) → si_outer resp 10 0 dest = STARTUP_ERROR))) := by
  have e0 : si_outer resp 10 0 dest =
      (match si_inner (resp 0) 10 0 dest true false with
      | none => 0
      | some x =>
        if (0 : Nat) = 2 then
          (if x.2.1 then RESP_ERROR else if x.2.2 then PGOOD_ERROR else STARTUP_ERROR)
        else si_outer resp 9 1 x.1) := si_outer_succ resp 9 0 dest
  have h0 := si_inner_spec0 (resp 0) dest true false
  rcases hc0 : si_inner (resp 0) 10 0 dest true false with - | ⟨d1, nr1, pf1⟩
  · have hg0 : ∃ j < 10, respGood (resp 0 j) := h0.1.mp hc0
    rw [e0, hc0]
    constructor
    · simp [hg0]
    · intro hnd
      exact absurd (Or.inl hg0) hnd
  · have hng0 : ¬ ∃ j < 10, respGood (resp 0 j) := by
      intro hg
      rw [h0.1.mpr hg] at hc0
      exact Option.noConfusion hc0
    rw [e0, hc0]
    simp only [show ¬ (0 : Nat) = 2 by omega, if_false]
    have e1 : si_outer resp 9 1 d1 =
        (match si_inner (resp 1) 10 0 d1 true false with
        | none => 0
        | some x =>
          if (1 : Nat) = 2 then
            (if x.2.1 then RESP_ERROR else if x.2.2 then PGOOD_ERROR else STARTUP_ERROR)
          else si_outer resp 8 2 x.1) := si_outer_succ resp 8 1 d1
    have h1 := si_inner_spec0 (resp 1) d1 true false
    rcases hc1 : si_inner (resp 1) 10 0 d1 true false with - | ⟨d2, nr2, pf2⟩
    · have hg1 : ∃ j < 10, respGood (resp 1 j) := h1.1.mp hc1
      rw [e1, hc1]
      constructor
      · simp [hg1]
      · intro hnd
        exact absurd (Or.inr (Or.inl hg1)) hnd
    · have hng1 : ¬ ∃ j < 10, respGood (resp 1 j) := by
        intro hg
        rw [h1.1.mpr hg] at hc1
        exact Option.noConfusion hc1
      rw [e1, hc1]
      simp only [show ¬ (1 : Nat) = 2 by omega, if_false]
      have e2 : si_outer resp 8 2 d2 =
          (match si_inner (resp 2) 10 0 d2 true false with
          | none => 0
          | some x =>
            if (2 : Nat) = 2 then
              (if x.2.1 then RESP_ERROR else if x.2.2 then PGOOD_ERROR else STARTUP_ERROR)
            else si_outer resp 7 3 x.1) := si_outer_succ resp 7 2 d2
      have h2 := si_inner_spec0 (resp 2) d2 true false
      rcases hc2 : si_inner (resp 2) 10 0 d2 true false with - | ⟨d3, nr3, pf3⟩
      · have hg2 : ∃ j < 10, respGood (resp 2 j) := h2.1.mp hc2
        rw [e2, hc2]
        constructor
        · simp [hg2]
        · intro hnd
          exact absurd (Or.inr (Or.inr hg2)) hnd
      · have hng2 : ¬ ∃ j < 10, respGood (resp 2 j) := by
          intro hg
          rw [h2.1.mpr hg] at hc2
          exact Option.noConfusion hc2
        rw [e2, hc2]
        simp only [show (2 : Nat) = 2 from rfl, if_true]
        have hflags := h2.2 d3 nr3 pf3 hc2
        constructor
        · constructor
          · intro hcls
            exfalso
            revert hcls
            cases nr3 <;> cases pf3 <;>
              simp [RESP_ERROR, PGOOD_ERROR, STARTUP_ERROR]
          · intro hd
            exact absurd hd (by
              intro hd2
              rcases hd2 with h | h | h
              · exact hng0 h
              · exact hng1 h
              · exact hng2 h)
        · intro hnd
          refine ⟨?_, ?_⟩
          · intro hP
            have hnr : nr3 = true := hflags.1.mpr ⟨rfl, hP⟩
            rw [hnr]
            simp
          · intro hP
            have hnr : nr3 = false := by
              cases hnr3 : nr3
              · rfl
              · exact absurd (hflags.1.mp hnr3).2 hP
            rw [hnr]
            refine ⟨?_, ?_⟩
            · intro hQ
              have hpf : pf3 = true := hflags.2.mpr (Or.inr hQ)
              rw [hpf]
              simp
            · intro hQ
              have hpf : pf3 = false := by
                cases hpf3 : pf3
                · rfl
                · rcases hflags.2.mp hpf3 with h | h
                  · exact Bool.noConfusion h
                  · exact absurd h hQ
              rw [hpf]
              simp

theorem exists_lt_three (P : Nat → Prop) : (∃ i < 3, P i) ↔ P 0 ∨ P 1 ∨ P 2 := by
  constructor
  · rintro ⟨i, hi, hp⟩
    interval_cases i
    · exact Or.inl hp
    · exact Or.inr (Or.inl hp)
    · exact Or.inr (Or.inr hp)
  · rintro (h | h | h)
    exacts [⟨0, by omega, h⟩, ⟨1, by omega, h⟩, ⟨2, by omega, h⟩]

theorem start_inverter_success (rail : Nat → Bool) (resp : Nat → Nat → List Nat)
    (dest : Nat → Nat) (hw : si_wake rail 3 0 = true)
    (hg : ∃ i < 3, ∃ j < 10, respGood (resp i j)) :
    start_inverter rail resp dest = 0 := by
  simp only [start_inverter, hw, if_true]
  exact (si_outer_spec resp dest).1.mpr ((exists_lt_three _).mp hg)

/-- C3 (amended): with the auxiliary rail seen present, start_inverter
returns 0 exactly when some poll of some executed round collects a
response of at least three bytes with both low bits of byte 1 set;
otherwise the failure classification is computed from the final round
alone — the no-response and acknowledged-without-power-good flags are
reset at the start of every round, so ResponseError means no response
during round 2, and PowerGoodError means an acknowledged-not-power-good
response during round 2. -/
theorem start_inverter_classified (rail : Nat → Bool) (resp : Nat → Nat → List Nat)
    (dest : Nat → Nat) (hw : si_wake rail 3 0 = true) :
    (start_inverter rail resp dest = 0 ↔ ∃ i < 3, ∃ j < 10, respGood (resp i j)) ∧
    (¬ (∃ i < 3, ∃ j < 10, respGood (resp i j)) →
      ((∀ j < 10, resp 2 j = []) → start_inverter rail resp dest = RESP_ERROR) ∧
      ((¬ ∀ j < 10, resp 2 j = []) →
        ((∃ j < 10, respAckNoPG (resp 2 j)) → start_inverter rail resp dest = PGOOD_ERROR) ∧
        ((¬ ∃ j < 10, respAckNoPG (resp 2 j)) →
          start_inverter rail resp dest = STARTUP_ERROR))) := by
  simp only [start_inverter, hw, if_true]
  constructor
  · rw [(si_outer_spec resp dest).1, exists_lt_three (fun i => ∃ j < 10, respGood (resp i j))]
  · intro hnd
    exact (si_outer_spec resp dest).2 (by
      rw [← exists_lt_three (fun i => ∃ j < 10, respGood (resp i j))]
      exact hnd)

/-- Witness for C3: a peer that always answers with both flags set makes
start_inverter succeed. -/
theorem start_inverter_classified_witness :
    si_wake (fun _ => true) 3 0 = true ∧
    start_inverter (fun _ => true) (fun _ _ => [0x00, 0x03, 0x00]) (fun _ => 0) = 0 :=
  ⟨by decide,
    (start_inverter_classified (fun _ => true) (fun _ _ => [0x00, 0x03, 0x00]) (fun _ => 0)
        (by decide)).1.mpr ⟨0, by omega, 0, by omega, by decide⟩⟩

/-- Counterexample for C3 as stated: the peer cexRespC3 responds (with a
single byte) in round 0 and stays silent afterwards, so a response was
received during the start attempts; the claim therefore forbids
ResponseError, yet the code returns RESP_ERROR because its no-response
flag is reset at each round and the classification looks only at the
final round. -/
theorem start_inverter_cex :
    start_inverter (fun _ => true) cexRespC3 (fun _ => 0) = RESP_ERROR ∧
    cexRespC3 0 0 = [7] ∧ RESP_ERROR ≠ STARTUP_ERROR := by
  refine ⟨?_, by decide, by decide⟩
  decide

/-- C10: start_inverter accepts a status response without ever inspecting
the byte-3 validity marker — any response of at least three bytes with
both low bits of byte 1 set yields immediate success even with byte 3
distinct from 0xFF; a response of only one byte still counts as received,
so the final classification is StartupError rather than ResponseError;
by contrast stop_inverter refuses to confirm on the same-shaped response
when buffer byte 3 is not 0xFF (it falls through to the 10-second wait
instead of confirming) and confirms when it is, and enough_power_drawn
counts no response whose buffer byte 3 is not 0xFF. -/
theorem start_accepts_ignores_marker :
    (∀ bytes dest, 3 ≤ bytes.length → bytes.getD 1 0 &&& 0x01 ≠ 0 →
      bytes.getD 1 0 &&& 0x02 ≠ 0 →
      start_inverter (fun _ => true) (fun _ _ => bytes) dest = 0) ∧
    start_inverter (fun _ => true) (fun i j => if i = 2 ∧ j = 0 then [7] else []) (fun _ => 0) =
      STARTUP_ERROR ∧
    stop_inverter (fun _ => true) (fun _ _ => [0x00, 0x00, 0x00, 0x00]) false (fun _ => 0) =
      (StopExit.gaveUp, 11) ∧
    stop_inverter (fun _ => true) (fun _ _ => [0x00, 0x00, 0x00, 0xFF]) false (fun _ => 0) =
      (StopExit.confirmedNoCut 0 0, 1) ∧
    enough_power_drawn (fun _ => [9, 3, 0, 0]) (fun _ => 0) = false ∧
    enough_power_drawn (fun _ => [9, 3, 0, 0xFF]) (fun _ => 0) = true := by
  refine ⟨?_, by decide, by decide, by decide, by decide, by decide⟩
  intro bytes dest h1 h2 h3
  exact start_inverter_success _ _ _ (by decide) ⟨0, by omega, 0, by omega, ⟨h1, h2, h3⟩⟩

/-- Witness for C10: a response with byte 3 equal to 0, not 0xFF, still
makes start_inverter succeed. -/
theorem start_accepts_ignores_marker_witness :
    (3 ≤ ([0x00, 0x03, 0x00, 0x00] : List Nat).length ∧
      ([0x00, 0x03, 0x00, 0x00] : List Nat).getD 1 0 &&& 0x01 ≠ 0 ∧
      ([0x00, 0x03, 0x00, 0x00] : List Nat).getD 1 0 &&& 0x02 ≠ 0) ∧
    start_inverter (fun _ => true) (fun _ _ => [0x00, 0x03, 0x00, 0x00]) (fun _ => 0) = 0 :=
  ⟨⟨by decide, by decide, by decide⟩,
    start_accepts_ignores_marker.1 [0x00, 0x03, 0x00, 0x00] (fun _ => 0) (by decide) (by decide)
      (by decide)⟩

/-! ## Theorems for C4: stop_inverter power-cut pulses -/

theorem railScan_none_of (rail : Nat → Bool) : ∀ n k t, (∀ d < n, rail (t + d) = true) →
    railScan rail n k t = (none, t + n) := by
  intro n
  induction n with
  | zero =>
    intro k t h
    simp [railScan]
  | succ n ih =>
    intro k t h
    have h0 : rail t = true := by simpa using h 0 (by omega)
    simp only [railScan, h0, if_true]
    rw [ih (k + 1) (t + 1) (fun d hd => by
      have hp := h (d + 1) (by omega)
      have e : t + (d + 1) = t + 1 + d := by omega
      rw [e] at hp
      exact hp)]
    have e2 : t + 1 + n = t + (n + 1) := by omega
    rw [e2]

theorem railScan_some_of (rail : Nat → Bool) : ∀ n k t d, d < n → rail (t + d) = false →
    (∀ e < d, rail (t + e) = true) → railScan rail n k t = (some (k + d), t + d + 1) := by
  intro n
  induction n with
  | zero =>
    intro k t d hd
    exact absurd hd (by omega)
  | succ n ih =>
    intro k t d hd hf hprev
    cases d with
    | zero =>
      have h0 : rail t = false := by simpa using hf
      simp [railScan, h0]
    | succ d2 =>
      have h0 : rail t = true := by simpa using hprev 0 (by omega)
      simp only [railScan, h0, if_true]
      rw [ih (k + 1) (t + 1) d2 (by omega)
        (by
          have e : t + (d2 + 1) = t + 1 + d2 := by omega
          rw [e] at hf
          exact hf)
        (fun e he => by
          have hp := hprev (e + 1) (by omega)
          have e2 : t + (e + 1) = t + 1 + e := by omega
          rw [e2] at hp
          exact hp)]
      simp only [Prod.mk.injEq, Option.some.injEq]
      omega

theorem stop_inner_succ (resp : Nat → List Nat) (rail : Nat → Bool) (cut : Bool) (i n j : Nat)
    (dest : Nat → Nat) (t : Nat) :
    stop_inner resp rail cut i (n + 1) j dest t =
      (if (LIN_read_response dest (resp j)).2 < 3 then
        stop_inner resp rail cut i n (j + 1) (LIN_read_response dest (resp j)).1 t
      else if (LIN_read_response dest (resp j)).1 3 ≠ 0xFF then
        stop_inner resp rail cut i n (j + 1) (LIN_read_response dest (resp j)).1 t
      else if (LIN_read_response dest (resp j)).1 1 &&& 0x01 ≠ 0 then
        stop_inner resp rail cut i n (j + 1) (LIN_read_response dest (resp j)).1 t
      else if cut = false then StopInnerRes.ret (StopExit.confirmedNoCut i j) t
      else
        match railScan rail 10 0 t with
        | (some k, t2) => StopInnerRes.ret (StopExit.cutDropped i j k) t2
        | (none, t2) => StopInnerRes.toPost t2) := rfl

theorem stop_inner_confirm (resp : Nat → List Nat) (rail : Nat → Bool) (cut : Bool)
    (i : Nat) (dest : Nat → Nat) (t : Nat) (hc : stopConfirm dest (resp 0)) :
    stop_inner resp rail cut i 10 0 dest t =
      (if cut = false then StopInnerRes.ret (StopExit.confirmedNoCut i 0) t
      else
        match railScan rail 10 0 t with
        | (some k, t2) => StopInnerRes.ret (StopExit.cutDropped i 0 k) t2
        | (none, t2) => StopInnerRes.toPost t2) := by
  obtain ⟨h1, h2, h3⟩ := hc
  have e : stop_inner resp rail cut i 10 0 dest t = _ :=
    stop_inner_succ resp rail cut i 9 0 dest t
  rw [e, if_neg (by omega), if_neg (by simp [h2]), if_neg (by simp [h3])]

theorem stop_inner_confirm_nocut (resp : Nat → List Nat) (rail : Nat → Bool)
    (i : Nat) (dest : Nat → Nat) (t : Nat) (hc : stopConfirm dest (resp 0)) :
    stop_inner resp rail false i 10 0 dest t =
      StopInnerRes.ret (StopExit.confirmedNoCut i 0) t := by
  rw [stop_inner_confirm resp rail false i dest t hc, if_pos rfl]

theorem stop_inner_confirm_cut (resp : Nat → List Nat) (rail : Nat → Bool)
    (i : Nat) (dest : Nat → Nat) (t : Nat) (hc : stopConfirm dest (resp 0)) :
    stop_inner resp rail true i 10 0 dest t =
      (match railScan rail 10 0 t with
      | (some k, t2) => StopInnerRes.ret (StopExit.cutDropped i 0 k) t2
      | (none, t2) => StopInnerRes.toPost t2) := by
  rw [stop_inner_confirm resp rail true i dest t hc,
    if_neg (show ¬ (true = false) from fun h => Bool.noConfusion h)]

theorem stop_outer_succ (resp : Nat → Nat → List Nat) (rail : Nat → Bool) (cut : Bool)
    (n i : Nat) (dest : Nat → Nat) (t : Nat) :
    stop_outer resp rail cut (n + 1) i dest t =
      (match stop_inner (resp i) rail cut i 10 0 dest t with
      | StopInnerRes.ret e t2 => (e, t2)
      | StopInnerRes.toPost t2 => stop_post rail t2
      | StopInnerRes.cont dest2 => stop_outer resp rail cut n (i + 1) dest2 t) := by
  rw [stop_outer]

/-- C4 (amended): once stop_inverter(true) obtains a stop confirmation,
it pulses the power-cut output up to ten times, returning as soon as the
rail drops; but when the rail survives all ten pulses it does not return
immediately: it leaves the round loop and falls into the same up-to-ten
second one-second-granularity wait used when no confirmation arrives,
returning early from there when the rail finally drops.  With cut_power
false it returns immediately upon confirmation. -/
theorem stop_inverter_cut_behaviour (rail : Nat → Bool) (resp : Nat → Nat → List Nat)
    (dest : Nat → Nat) (h0 : rail 0 = true) (hc : stopConfirm dest (resp 0 0)) :
    (stop_inverter rail resp false dest = (StopExit.confirmedNoCut 0 0, 1)) ∧
    (∀ k < 10, rail (1 + k) = false → (∀ e < k, rail (1 + e) = true) →
      stop_inverter rail resp true dest = (StopExit.cutDropped 0 0 k, 1 + k + 1)) ∧
    ((∀ k < 10, rail (1 + k) = true) →
      ((∀ m < 10, rail (11 + m) = true) →
        stop_inverter rail resp true dest = (StopExit.gaveUp, 21)) ∧
      (∀ m < 10, rail (11 + m) = false → (∀ e < m, rail (11 + e) = true) →
        stop_inverter rail resp true dest = (StopExit.autoDropped m, 11 + m + 1))) := by
  have ew : ∀ cut, stop_inverter rail resp cut dest = stop_outer resp rail cut 3 0 dest 1 := by
    intro cut
    simp [stop_inverter, h0]
  have eo : ∀ cut, stop_outer resp rail cut 3 0 dest 1 =
      (match stop_inner (resp 0) rail cut 0 10 0 dest 1 with
      | StopInnerRes.ret e t2 => (e, t2)
      | StopInnerRes.toPost t2 => stop_post rail t2
      | StopInnerRes.cont dest2 => stop_outer resp rail cut 2 1 dest2 1) :=
    fun cut => stop_outer_succ resp rail cut 2 0 dest 1
  refine ⟨?_, ?_, ?_⟩
  · rw [ew false, eo false, stop_inner_confirm_nocut (resp 0) rail 0 dest 1 hc]
  · intro k hk hkf hke
    rw [ew true, eo true, stop_inner_confirm_cut (resp 0) rail 0 dest 1 hc]
    rw [railScan_some_of rail 10 0 1 k hk hkf hke]
    simp
  · intro hpt
    have hscan1 : railScan rail 10 0 1 = (none, 11) := by
      have := railScan_none_of rail 10 0 1 hpt
      simpa using this
    constructor
    · intro hm
      have hscan2 : railScan rail 10 0 11 = (none, 21) := by
        have := railScan_none_of rail 10 0 11 hm
        simpa using this
      rw [ew true, eo true, stop_inner_confirm_cut (resp 0) rail 0 dest 1 hc, hscan1]
      show stop_post rail 11 = (StopExit.gaveUp, 21)
      simp only [stop_post, hscan2]
    · intro m hm hmf hme
      have hscan2 : railScan rail 10 0 11 = (some m, 11 + m + 1) := by
        have := railScan_some_of rail 10 0 11 m hm hmf hme
        simpa using this
      rw [ew true, eo true, stop_inner_confirm_cut (resp 0) rail 0 dest 1 hc, hscan1]
      show stop_post rail 11 = (StopExit.autoDropped m, 11 + m + 1)
      simp only [stop_post, hscan2]

/-- Witness for C4: rail present through the confirmation and all ten
pulses, dropping at the first second of the final wait. -/
theorem stop_inverter_cut_behaviour_witness :
    ((fun t => decide (t ≤ 10)) 0 = true ∧
      stopConfirm (fun _ => 0) [0x00, 0x00, 0x00, 0xFF]) ∧
    stop_inverter (fun t => decide (t ≤ 10)) (fun _ _ => [0x00, 0x00, 0x00, 0xFF]) true
      (fun _ => 0) = (StopExit.autoDropped 0, 11 + 0 + 1) :=
  ⟨⟨by decide, ⟨by decide, by decide, by decide⟩⟩,
    ((stop_inverter_cut_behaviour (fun t => decide (t ≤ 10))
          (fun _ _ => [0x00, 0x00, 0x00, 0xFF]) (fun _ => 0) (by decide)
          ⟨by decide, by decide, by decide⟩).2.2
        (by decide)).2 0 (by decide) (by decide) (by decide)⟩

/-- Counterexample for C4 as stated: the peer confirms the stop at the
first poll, the rail never drops.  The claim says the function then
returns without performing the up-to-ten-second wait, i.e. after the
entry check and the ten pulse checks (eleven rail samples).  The code
instead falls into the final wait loop and samples the rail ten more
times at one-second spacing, giving up only after twenty-one samples. -/
theorem stop_inverter_cut_cex :
    stop_inverter (fun _ => true) (fun _ _ => [0x00, 0x00, 0x00, 0xFF]) true (fun _ => 0) =
      (StopExit.gaveUp, 21) ∧
    stopConfirm (fun _ => 0) [0x00, 0x00, 0x00, 0xFF] ∧ (21 : Nat) ≠ 11 := by
  refine ⟨by decide, ⟨by decide, by decide, by decide⟩, by decide⟩

/-! ## Theorems for C5: no-load branch wakeup cadence -/

/-- C5 (amended): on a no-load check with the counter below 60 the branch
soft-stops (stop_inverter false), increments the counter, waits the ~3s
interval, and re-issues the wakeup with the additional ~3s wait on every
check whose incremented counter has reached 20 — that is, on every
consecutive no-load check from the 20th onward, not only on multiples of
20. -/
theorem noLoadBranch_below_sixty : ∀ c < 60,
    noLoadBranch c =
      { stopCut := false
        wakeup := decide (20 ≤ c + 1)
        waits := if 20 ≤ c + 1 then [18, 30] else [18]
        newCounter := c + 1 } := by decide

/-- Witness for C5 at counter 20 (the 21st consecutive no-load check). -/
theorem noLoadBranch_below_sixty_witness :
    (20 : Nat) < 60 ∧
    noLoadBranch 20 =
      { stopCut := false
        wakeup := decide (20 ≤ 20 + 1)
        waits := if 20 ≤ 20 + 1 then [18, 30] else [18]
        newCounter := 20 + 1 } :=
  ⟨by decide, noLoadBranch_below_sixty 20 (by decide)⟩

/-- Counterexample for C5 as stated: the 21st consecutive no-load check
(entry counter 20, incremented to 21) is not a 20th check, yet the code
re-issues the wakeup, because line 345 tests the counter with a
greater-or-equal comparison, not a multiple-of-20 one. -/
theorem noLoadBranch_cex :
    (noLoadBranch 20).wakeup = true ∧ (noLoadBranch 20).newCounter = 21 ∧
    ¬ (21 % 20 = 0) := by decide

/-! ## Theorems for C7: permanent shutdown on the fifth consecutive failure -/

theorem winC_zero (c : Nat) (g : Bool) (rest : List Bool) :
    winC c (g :: rest) 0 ↔ (g = false ∧ 4 ≤ c) := by
  unfold winC
  constructor
  · rintro ⟨h1, h2⟩
    have h0 := h2 0 (by omega)
    simp at h0
    exact ⟨h0, by omega⟩
  · rintro ⟨hg, hc⟩
    refine ⟨by omega, ?_⟩
    intro k hk
    have hk0 : k = 0 := by omega
    subst hk0
    simpa using hg

theorem winC_succ_true (c n : Nat) (rest : List Bool) :
    winC c (true :: rest) (n + 1) ↔ winC 0 rest n := by
  unfold winC
  constructor
  · rintro ⟨h1, h2⟩
    by_cases hn : 4 ≤ n
    · refine ⟨by omega, ?_⟩
      intro k hk
      have hk5 : k < min 5 (n + 2) := by omega
      have hv := h2 k hk5
      have he : n + 1 - k = (n - k) + 1 := by omega
      rw [he] at hv
      simpa using hv
    · exfalso
      have hkk : n + 1 < min 5 (n + 2) := by omega
      have hv := h2 (n + 1) hkk
      simp at hv
  · rintro ⟨h1, h2⟩
    refine ⟨by omega, ?_⟩
    intro k hk
    have hk5 : k < min 5 (n + 1) := by omega
    have hv := h2 k hk5
    have he : n + 1 - k = (n - k) + 1 := by omega
    rw [he]
    simpa using hv

theorem winC_succ_false (c n : Nat) (rest : List Bool) :
    winC c (false :: rest) (n + 1) ↔ winC (c + 1) rest n := by
  unfold winC
  constructor
  · rintro ⟨h1, h2⟩
    refine ⟨by omega, ?_⟩
    intro k hk
    have hk2 : k < min 5 (n + 2) := by omega
    have hv := h2 k hk2
    have he : n + 1 - k = (n - k) + 1 := by omega
    rw [he] at hv
    simpa using hv
  · rintro ⟨h1, h2⟩
    refine ⟨by omega, ?_⟩
    intro k hk
    by_cases hkn : k ≤ n
    · have hk2 : k < min 5 (n + 1) := by omega
      have hv := h2 k hk2
      have he : n + 1 - k = (n - k) + 1 := by omega
      rw [he]
      simpa using hv
    · have hk1 : k = n + 1 := by omega
      subst hk1
      simp

theorem lowBattRun_iff : ∀ (l : List Bool) (c n : Nat), c ≤ 4 →
    (lowBattRun l c = some n ↔ winC c l n ∧ ∀ m < n, ¬ winC c l m) := by
  intro l
  induction l with
  | nil =>
    intro c n hc
    constructor
    · intro h
      simp [lowBattRun] at h
    · rintro ⟨⟨h1, h2⟩, -⟩
      exfalso
      have hv := h2 0 (by omega)
      simp at hv
  | cons g rest ih =>
    intro c n hc
    cases g with
    | true =>
      have estep : lowBattRun (true :: rest) c = (lowBattRun rest 0).map (fun m => m + 1) := by
        simp [lowBattRun, lowBattStep]
      rw [estep]
      constructor
      · intro h
        rw [Option.map_eq_some'] at h
        obtain ⟨n0, hn0, hfn⟩ := h
        subst hfn
        have hiff := (ih 0 n0 (by omega)).mp hn0
        refine ⟨(winC_succ_true c n0 rest).mpr hiff.1, ?_⟩
        intro m hm
        cases m with
        | zero =>
          rw [winC_zero]
          rintro ⟨hgf, -⟩
          exact Bool.noConfusion hgf
        | succ m0 =>
          rw [winC_succ_true]
          exact hiff.2 m0 (by omega)
      · rintro ⟨hw, hmin⟩
        cases n with
        | zero =>
          exfalso
          rw [winC_zero] at hw
          exact Bool.noConfusion hw.1
        | succ n0 =>
          have hw0 : winC 0 rest n0 := (winC_succ_true c n0 rest).mp hw
          have hmin0 : ∀ m < n0, ¬ winC 0 rest m := by
            intro m hm hwm
            exact hmin (m + 1) (by omega) ((winC_succ_true c m rest).mpr hwm)
          rw [(ih 0 n0 (by omega)).mpr ⟨hw0, hmin0⟩]
          rfl
    | false =>
      by_cases hc4 : c = 4
      · subst hc4
        have estep : lowBattRun (false :: rest) 4 = some 0 := by
          simp [lowBattRun, lowBattStep]
        rw [estep]
        constructor
        · intro h
          have hn0 : n = 0 := by
            injection h with h2
            omega
          subst hn0
          exact ⟨(winC_zero 4 false rest).mpr ⟨rfl, by omega⟩,
            fun m hm => absurd hm (by omega)⟩
        · rintro ⟨hw, hmin⟩
          cases n with
          | zero => rfl
          | succ n0 =>
            exact absurd ((winC_zero 4 false rest).mpr ⟨rfl, by omega⟩)
              (hmin 0 (by omega))
      · have hlt : ¬ (5 ≤ c + 1) := by omega
        have estep : lowBattRun (false :: rest) c =
            (lowBattRun rest (c + 1)).map (fun m => m + 1) := by
          simp [lowBattRun, lowBattStep, hlt]
        rw [estep]
        constructor
        · intro h
          rw [Option.map_eq_some'] at h
          obtain ⟨n0, hn0, hfn⟩ := h
          subst hfn
          have hiff := (ih (c + 1) n0 (by omega)).mp hn0
          refine ⟨(winC_succ_false c n0 rest).mpr hiff.1, ?_⟩
          intro m hm
          cases m with
          | zero =>
            rw [winC_zero]
            rintro ⟨-, hcc⟩
            omega
          | succ m0 =>
            rw [winC_succ_false]
            exact hiff.2 m0 (by omega)
        · rintro ⟨hw, hmin⟩
          cases n with
          | zero =>
            exfalso
            rw [winC_zero] at hw
            omega
          | succ n0 =>
            have hw0 : winC (c + 1) rest n0 := (winC_succ_false c n0 rest).mp hw
            have hmin0 : ∀ m < n0, ¬ winC (c + 1) rest m := by
              intro m hm hwm
              exact hmin (m + 1) (by omega) ((winC_succ_false c m rest).mpr hwm)
            rw [(ih (c + 1) n0 (by omega)).mpr ⟨hw0, hmin0⟩]
            rfl

theorem shutdownWindow_iff_winC0 (l : List Bool) (n : Nat) :
    winC 0 l n ↔ shutdownWindow l n := by
  unfold winC shutdownWindow
  constructor
  · rintro ⟨h1, h2⟩
    exact ⟨by omega, fun k hk => h2 k (by omega)⟩
  · rintro ⟨h1, h2⟩
    exact ⟨by omega, fun k hk => h2 k (by omega)⟩

/-- C7: starting from counter 0, the control loop enters permanent
shutdown at iteration n exactly when the five is_power_good results
ending at n are all failures and no earlier index has that property —
so exactly on the fifth consecutive failure, never on the fourth; a
single good result resets the counter to 0, a failure at counter below 4
merely increments it, and a failure at counter 4 triggers the shutdown. -/
theorem low_batt_exact_fifth (l : List Bool) (n : Nat) :
    (lowBattRun l 0 = some n ↔ shutdownWindow l n ∧ ∀ m < n, ¬ shutdownWindow l m) ∧
    (∀ c, lowBattStep true c = (0, false)) ∧
    (∀ c, c < 4 → lowBattStep false c = (c + 1, false)) ∧
    lowBattStep false 4 = (5, true) := by
  refine ⟨?_, fun c => rfl, ?_, by decide⟩
  · rw [lowBattRun_iff l 0 n (by omega)]
    constructor
    · rintro ⟨hw, hmin⟩
      exact ⟨(shutdownWindow_iff_winC0 l n).mp hw,
        fun m hm hs => hmin m hm ((shutdownWindow_iff_winC0 l m).mpr hs)⟩
    · rintro ⟨hw, hmin⟩
      exact ⟨(shutdownWindow_iff_winC0 l n).mpr hw,
        fun m hm hw2 => hmin m hm ((shutdownWindow_iff_winC0 l m).mp hw2)⟩
  · intro c hcc
    have hlt : ¬ (5 ≤ c + 1) := by omega
    simp [lowBattStep, hlt]

/-- Witness for C7: five consecutive failures shut down at index 4, the
fifth iteration. -/
theorem low_batt_exact_fifth_witness :
    lowBattRun [false, false, false, false, false] 0 = some 4 :=
  (low_batt_exact_fifth [false, false, false, false, false] 4).1.mpr (by decide)

end Inverter
